import Mathlib

/-!
# Verification of the local-remote reconciliation layer (`mockData.ts`)

Shallow embedding of the reconciliation layer of the billboard-rental
management application: the `smartSyncTable` merge routine inside
`triggerFullSync`, the `saveToStorage` quota-fallback persistence adapter,
and the `notifyListeners` change-notification primitive.

Records are modelled as an `id` string plus an opaque `payload` string
standing for all remaining fields of the record (the merge logic only ever
inspects `id`; whole records are moved around unchanged, and two records
are structurally equal iff both components agree, mirroring
`JSON.stringify` equality on records of identical field structure).
-/

/-- A record of one entity collection: an `id` plus the rest of the record,
opaque to the sync layer (`payload` stands for all non-id fields). -/
structure Row where
  id : String
  payload : String
deriving DecidableEq, Repr

/-- An entry of the deletion queue: `interface DeletedItem { table: string; id: string; timestamp: number; }`. -/
structure DeletedItem where
  table : String
  id : String
  timestamp : Int
deriving DecidableEq, Repr

/-- JS `s.split('-')` on the character list: splits at every `'-'`,
keeping empty segments. -/
def jsSplitDashAux : List Char → List Char → List (List Char)
  | [], acc => [acc.reverse]
  | c :: rest, acc =>
    if c = '-' then acc.reverse :: jsSplitDashAux rest []
    else jsSplitDashAux rest (c :: acc)

/-- JS `id.split('-')`. -/
def jsSplitDash (s : String) : List String :=
  (jsSplitDashAux s.toList []).map (fun l => String.mk l)

/-- Decimal value of a digit string. -/
def digitsToNat (l : List Char) : Nat :=
  l.foldl (fun acc c => acc * 10 + (c.toNat - 48)) 0

/-- JS `Number(p)` restricted to the strings this code feeds it: the id
segments are plain words or decimal millisecond timestamps (ids are built
as e.g. `log-${Date.now()}`), so `!isNaN(Number(p))` holds exactly for
all-digit segments, whose numeric value is their decimal reading.
Returns `none` where `Number(p)` is `NaN`. -/
def jsNumber? (s : String) : Option Int :=
  if s.toList.all Char.isDigit then some (digitsToNat s.toList) else none

/-- JS `s.startsWith(p)`. -/
def strStartsWith (s p : String) : Bool :=
  s.toList.take p.toList.length == p.toList

/-- The timestamp-extraction heuristic of `smartSyncTable`:
`const parts = item.id.split('-');
 const potentialTs = parts.find(p => p.length > 10 && !isNaN(Number(p)));`
returning `Number(potentialTs)` when found. -/
def extractTs (id : String) : Option Int :=
  match (jsSplitDash id).find? (fun p => decide (p.length > 10) && (jsNumber? p).isSome) with
  | some p => jsNumber? p
  | none => none

/-- The `isNewLocal` classification of one local-only id in `smartSyncTable`:
starts `false`; set by the embedded-timestamp recency test
(`Date.now() - ts < 600000`) when a timestamp is found, otherwise by the
static/dev/owner id test (`id.length < 10 || id.startsWith('dev-') ||
id.startsWith('owner-')`); then overridden to `true` by `isRecentRestore`
and by `tableName === 'users'`. -/
def classifyIsNewLocal (tableName : String) (isRecentRestore : Bool) (now : Int) (id : String) : Bool :=
  let fromId :=
    match extractTs id with
    | some ts => decide (now - ts < 600000)
    | none => decide (id.length < 10) || strStartsWith id "dev-" || strStartsWith id "owner-"
  (fromId || isRecentRestore) || (tableName == "users")

/-- Ids pending deletion for one table:
`new Set(deletedQueue.filter(i => i.table === tableName).map(i => i.id))`. -/
def pendingIdsFor (deletedQueue : List DeletedItem) (tableName : String) : List String :=
  (deletedQueue.filter (fun i => i.table == tableName)).map (fun i => i.id)

/-- The `for (const item of localOnly)` loop of `smartSyncTable`: the
accumulator carries `(mergedData, upserts issued so far)`; an item pending
deletion is skipped (`continue`); a new-local item absent from `mergedMap`
(the ids of the initial remote-minus-deletions base, not updated by the
loop) is appended to `mergedData` and pushed to the cloud
(`syncToSupabase`). -/
def syncLoop (tableName : String) (pending mergedIds : List String)
    (isRecentRestore : Bool) (now : Int) :
    List Row → List Row × List Row → List Row × List Row
  | [], acc => acc
  | item :: rest, acc =>
    if pending.contains item.id then
      syncLoop tableName pending mergedIds isRecentRestore now rest acc
    else if classifyIsNewLocal tableName isRecentRestore now item.id && !mergedIds.contains item.id then
      syncLoop tableName pending mergedIds isRecentRestore now rest
        (acc.1 ++ [item], acc.2 ++ [item])
    else
      syncLoop tableName pending mergedIds isRecentRestore now rest acc

/-- Derived characterization (used only in proofs): the condition under
which the `localOnly` loop of `smartSyncTable` appends an item — not
pending deletion, classified as new local, and its id absent from the
(fixed) id set of the remote-minus-deletions base. -/
def localOnlyCond (tableName : String) (pending mergedIds : List String)
    (isRecentRestore : Bool) (now : Int) (item : Row) : Bool :=
  !pending.contains item.id &&
    (classifyIsNewLocal tableName isRecentRestore now item.id && !mergedIds.contains item.id)

/-- Steps B and C of `smartSyncTable` after a successful fetch: the merged
result together with the list of upsert calls issued, in order.
`mergedData = remoteData.filter(d => !pendingDeleteIds.has(d.id))`,
`localOnly = localData.filter(l => !remoteMap.has(l.id))`, then the
classification loop. -/
def smartSyncMerge (tableName : String) (localData remoteData : List Row)
    (deletedQueue : List DeletedItem) (isRecentRestore : Bool) (now : Int) :
    List Row × List Row :=
  let pending := pendingIdsFor deletedQueue tableName
  let remoteIds := remoteData.map Row.id
  let mergedBase := remoteData.filter (fun d => !pending.contains d.id)
  let mergedIds := mergedBase.map Row.id
  let localOnly := localData.filter (fun l => !remoteIds.contains l.id)
  syncLoop tableName pending mergedIds isRecentRestore now localOnly (mergedBase, [])

/-- Derived characterization (used only in proofs): the remote rows minus
those pending deletion — step B's initial `mergedData`. -/
def mergedBaseOf (tableName : String) (remoteData : List Row)
    (deletedQueue : List DeletedItem) : List Row :=
  remoteData.filter (fun d => !(pendingIdsFor deletedQueue tableName).contains d.id)

/-- Derived characterization (used only in proofs): the local-only rows the
loop appends to the merged result and pushes to the remote store. -/
def pushedRowsOf (tableName : String) (localData remoteData : List Row)
    (deletedQueue : List DeletedItem) (isRecentRestore : Bool) (now : Int) : List Row :=
  (localData.filter (fun l => !(remoteData.map Row.id).contains l.id)).filter
    (localOnlyCond tableName (pendingIdsFor deletedQueue tableName)
      ((mergedBaseOf tableName remoteData deletedQueue).map Row.id) isRecentRestore now)

/-- Outcome of one `smartSyncTable` pass for one collection: the local
cache afterwards, the upsert calls issued, and whether the apply branch ran
(`setLocalData` + `saveToStorage` + `hasChanges = true`, which all happen
together in step D). -/
structure SyncOutcome where
  localData : List Row
  upserts : List Row
  saved : Bool
deriving DecidableEq, Repr

/-- One `smartSyncTable` pass. `remote = none` models
`if (error || !remoteData) return;` as well as a fetch that throws (caught
by the surrounding `try`/`catch` before any local mutation): the pass
aborts with local state unchanged and nothing raised. On success, step D
applies the merged result only when `JSON.stringify(localData) !==
JSON.stringify(mergedData)`, i.e. only when the lists differ structurally. -/
def smartSyncTable (tableName : String) (localData : List Row)
    (remote : Option (List Row)) (deletedQueue : List DeletedItem)
    (isRecentRestore : Bool) (now : Int) : SyncOutcome :=
  match remote with
  | none => ⟨localData, [], false⟩
  | some remoteData =>
    let p := smartSyncMerge tableName localData remoteData deletedQueue isRecentRestore now
    if localData = p.1 then ⟨localData, p.2, false⟩
    else ⟨p.1, p.2, true⟩

/-! ## Change notification (`notifyListeners`) -/

/-- Behaviour of one registered listener when invoked: it either returns
normally or throws. -/
inductive ListenerKind where
  | ok : ListenerKind
  | throwing : ListenerKind
deriving DecidableEq, Repr

/-- `notifyListeners = () => { listeners.forEach(listener => listener()); }`
over the listeners in registration order (JS `Set` iterates in insertion
order). Returns `(n, raised)`: the first `n` listeners were invoked, and
`raised` tells whether an exception escaped to the caller. JS
`Set.prototype.forEach` does not catch callback exceptions: a throw ends
the iteration and propagates. -/
def notifyListeners : List ListenerKind → Nat × Bool
  | [] => (0, false)
  | ListenerKind.ok :: rest =>
    let r := notifyListeners rest
    (r.1 + 1, r.2)
  | ListenerKind.throwing :: _ => (1, true)

/-! ## Local persistence adapter (`saveToStorage`) -/

/-- The error a storage write can raise; `quotaExceeded` stands for
`e.name === 'QuotaExceededError' || e.code === 22`, `other` for every other
exception (including a serialization failure). -/
inductive JsErr where
  | quotaExceeded : JsErr
  | other : JsErr
deriving DecidableEq, Repr

/-- A `localStorage` backend over states `σ`: `setItem` may fail, and the
state it returns on failure is the unchanged input state (a failed write
stores nothing); `removeItem` is total. -/
structure LocalStorage (σ : Type) where
  setItem : σ → String → String → Except JsErr σ
  removeItem : σ → String → σ

/-- `STORAGE_KEYS.LOGS`. -/
def logsKey : String := "db_logs"

/-- `STORAGE_KEYS.AUTO_BACKUP`. -/
def autoBackupKey : String := "db_auto_backup_data"

/-- `STORAGE_KEYS.CLOUD_MIRROR`. -/
def cloudMirrorKey : String := "db_cloud_mirror_data"

/-- Trace of one `saveToStorage(key, data)` call: final storage state, how
many `setItem` attempts were made, which keys were evicted via
`removeItem`, in order, and whether an exception escaped to the caller. -/
structure SaveResult (σ : Type) where
  state : σ
  attempts : Nat
  removed : List String
  raised : Option JsErr
deriving Repr

/-- `saveToStorage`: serializes (`value` arrives pre-serialized — the
serialization of this layer's plain data never fails) and writes; on a
quota-exceeded failure it removes `LOGS`, `AUTO_BACKUP` and `CLOUD_MIRROR`
and retries the write once inside a nested `try` whose `catch` swallows
any failure; the outer `catch` swallows every non-quota failure. No branch
rethrows. -/
def saveToStorage {σ : Type} (M : LocalStorage σ) (s : σ) (key value : String) : SaveResult σ :=
  match M.setItem s key value with
  | Except.ok s1 => ⟨s1, 1, [], none⟩
  | Except.error e =>
    if e = JsErr.quotaExceeded then
      let s1 := M.removeItem s logsKey
      let s2 := M.removeItem s1 autoBackupKey
      let s3 := M.removeItem s2 cloudMirrorKey
      match M.setItem s3 key value with
      | Except.ok s4 => ⟨s4, 2, [logsKey, autoBackupKey, cloudMirrorKey], none⟩
      | Except.error _ => ⟨s3, 2, [logsKey, autoBackupKey, cloudMirrorKey], none⟩
    else ⟨s, 1, [], none⟩

/-- A concrete storage stub for exercising the quota fallback: the state is
the list of stored keys; a write throws quota-exceeded while the audit-log
cache key is still present, and succeeds once it has been cleared. -/
def quotaStub : LocalStorage (List String) where
  setItem s key _ :=
    if s.contains logsKey then Except.error JsErr.quotaExceeded
    else Except.ok (key :: s)
  removeItem s key := s.filter (fun k => !(k == key))

/-! ## Structural lemmas about the merge loop -/

/-- The `localOnly` loop is a filter: the items appended to `mergedData`
and the items upserted are exactly those satisfying `localOnlyCond`, in
input order (the loop never consults its own accumulator: `mergedMap` is
built once from the remote base and not updated). -/
theorem syncLoop_eq (t : String) (pending mergedIds : List String)
    (rr : Bool) (now : Int) (l : List Row) (m u : List Row) :
    syncLoop t pending mergedIds rr now l (m, u) =
      (m ++ l.filter (localOnlyCond t pending mergedIds rr now),
       u ++ l.filter (localOnlyCond t pending mergedIds rr now)) := by
  induction l generalizing m u with
  | nil => simp [syncLoop]
  | cons item rest ih =>
    simp only [syncLoop]
    cases h1 : pending.contains item.id with
    | true =>
      have hc : localOnlyCond t pending mergedIds rr now item = false := by
        simp only [localOnlyCond, h1, Bool.not_true, Bool.false_and]
      rw [if_pos rfl, List.filter_cons, if_neg (by simp [hc]), ih]
    | false =>
      rw [if_neg (by simp [h1])]
      cases h2 : classifyIsNewLocal t rr now item.id && !mergedIds.contains item.id with
      | true =>
        have hc : localOnlyCond t pending mergedIds rr now item = true := by
          simp only [localOnlyCond, h1, Bool.not_false, Bool.true_and, h2]
        rw [if_pos rfl, List.filter_cons, if_pos (by simp [hc]), ih]
        simp
      | false =>
        have hc : localOnlyCond t pending mergedIds rr now item = false := by
          simp only [localOnlyCond, h1, Bool.not_false, Bool.true_and, h2]
        rw [if_neg (by simp), List.filter_cons, if_neg (by simp [hc]), ih]

/-- `smartSyncMerge` in closed form: the merged result is the
remote-minus-deletions base followed by the pushed local-only rows, and the
upserts are exactly the pushed rows. -/
theorem smartSyncMerge_eq (t : String) (localData remoteData : List Row)
    (q : List DeletedItem) (rr : Bool) (now : Int) :
    smartSyncMerge t localData remoteData q rr now =
      (mergedBaseOf t remoteData q ++ pushedRowsOf t localData remoteData q rr now,
       pushedRowsOf t localData remoteData q rr now) := by
  simp only [smartSyncMerge]
  rw [syncLoop_eq]
  simp only [List.nil_append]
  rfl

/-- Membership in `pendingIdsFor`. -/
theorem mem_pendingIdsFor {q : List DeletedItem} {t : String} {e : DeletedItem}
    (he : e ∈ q) (ht : e.table = t) : e.id ∈ pendingIdsFor q t := by
  unfold pendingIdsFor
  exact List.mem_map_of_mem _ (List.mem_filter.mpr ⟨he, by simp [ht]⟩)

/-- Every row of the merged base has an id not pending deletion. -/
theorem mergedBaseOf_id_not_pending {t : String} {remoteData : List Row}
    {q : List DeletedItem} {r : Row} (hr : r ∈ mergedBaseOf t remoteData q) :
    r.id ∉ pendingIdsFor q t := by
  unfold mergedBaseOf at hr
  have := (List.mem_filter.mp hr).2
  simpa using this

/-- Every pushed row has an id not pending deletion. -/
theorem pushedRowsOf_id_not_pending {t : String} {localData remoteData : List Row}
    {q : List DeletedItem} {rr : Bool} {now : Int} {r : Row}
    (hr : r ∈ pushedRowsOf t localData remoteData q rr now) :
    r.id ∉ pendingIdsFor q t := by
  unfold pushedRowsOf at hr
  have := (List.mem_filter.mp hr).2
  unfold localOnlyCond at this
  simp only [Bool.and_eq_true, Bool.not_eq_true'] at this
  simpa using this.1

/-- A string absent from a list is not `contains`-found. -/
theorem contains_eq_false_of_not_mem {l : List String} {a : String}
    (h : a ∉ l) : l.contains a = false := by
  simpa using h

/-- Ids of the merged base are ids of the remote fetch. -/
theorem mergedBaseOf_ids_subset {t : String} {remoteData : List Row}
    {q : List DeletedItem} {x : String}
    (hx : x ∈ (mergedBaseOf t remoteData q).map Row.id) :
    x ∈ remoteData.map Row.id := by
  simp only [mergedBaseOf, List.mem_map, List.mem_filter] at hx ⊢
  obtain ⟨r, ⟨hr, _⟩, hid⟩ := hx
  exact ⟨r, hr, hid⟩

/-- A local row absent from the remote fetch whose id passes the loop
condition ends up both in the merged result and among the upserts. -/
theorem mem_of_localOnlyCond {t : String} {localData remoteData : List Row}
    {q : List DeletedItem} {rr : Bool} {now : Int} {row : Row}
    (hlocal : row ∈ localData)
    (hremote : row.id ∉ remoteData.map Row.id)
    (hcond : localOnlyCond t (pendingIdsFor q t)
      ((mergedBaseOf t remoteData q).map Row.id) rr now row = true) :
    row ∈ (smartSyncMerge t localData remoteData q rr now).1 ∧
    row ∈ (smartSyncMerge t localData remoteData q rr now).2 := by
  have hlo : row ∈ localData.filter (fun l => !(remoteData.map Row.id).contains l.id) :=
    List.mem_filter.mpr ⟨hlocal, by rw [contains_eq_false_of_not_mem hremote]; rfl⟩
  have hp : row ∈ pushedRowsOf t localData remoteData q rr now :=
    List.mem_filter.mpr ⟨hlo, hcond⟩
  rw [smartSyncMerge_eq]
  exact ⟨List.mem_append_right _ hp, hp⟩

/-- Building the loop condition from its three parts. -/
theorem localOnlyCond_intro {t : String} {remoteData : List Row}
    {q : List DeletedItem} {rr : Bool} {now : Int} {row : Row}
    (hnq : row.id ∉ pendingIdsFor q t)
    (hclass : classifyIsNewLocal t rr now row.id = true)
    (hremote : row.id ∉ remoteData.map Row.id) :
    localOnlyCond t (pendingIdsFor q t)
      ((mergedBaseOf t remoteData q).map Row.id) rr now row = true := by
  have hm : row.id ∉ (mergedBaseOf t remoteData q).map Row.id :=
    fun hmem => hremote (mergedBaseOf_ids_subset hmem)
  simp only [localOnlyCond, contains_eq_false_of_not_mem hnq,
    contains_eq_false_of_not_mem hm, hclass]
  rfl

/-! ## C1: deletion precedence -/

/-- C1: for every collection `t` and every id present in the deletion queue
for `t` at the start of a pass, the merged result computed by the pass
contains no record with that id, even when the remote fetch returns such a
record — queued ids are filtered out of the remote base and queued
local-only rows are skipped. -/
theorem deletion_precedence (t : String) (localData remoteData : List Row)
    (q : List DeletedItem) (rr : Bool) (now : Int) (e : DeletedItem)
    (he : e ∈ q) (ht : e.table = t) :
    ∀ r ∈ (smartSyncMerge t localData remoteData q rr now).1, r.id ≠ e.id := by
  intro r hr
  rw [smartSyncMerge_eq] at hr
  have hid : e.id ∈ pendingIdsFor q t := mem_pendingIdsFor he ht
  rcases List.mem_append.mp hr with h | h
  · exact fun hEq => mergedBaseOf_id_not_pending h (hEq ▸ hid)
  · exact fun hEq => pushedRowsOf_id_not_pending h (hEq ▸ hid)

/-- Witness for C1: id `"x"` is queued for deletion on `billboards`, the
remote fetch still returns it and it is still in the local cache; the
merged result contains no record with id `"x"`. -/
theorem deletion_precedence_witness :
    ((smartSyncMerge "billboards" [⟨"x", "local"⟩] [⟨"x", "remote"⟩]
        [⟨"billboards", "x", 5⟩] false 0).1.all (fun r => !(r.id == "x"))) = true := by
  have h := deletion_precedence "billboards" [⟨"x", "local"⟩] [⟨"x", "remote"⟩]
    [⟨"billboards", "x", 5⟩] false 0 ⟨"billboards", "x", 5⟩ (by simp) rfl
  rw [List.all_eq_true]
  intro r hr
  simpa using h r hr

/-! ## C7: fetch-failure atomicity -/

/-- C7: when the remote fetch fails (error result, missing data, or a
throw, all modelled by `remote = none`), the pass leaves the local cache
unchanged, issues no upsert, and marks no change; nothing is raised (the
outcome is total). -/
theorem fetch_failure_atomicity (t : String) (localData : List Row)
    (q : List DeletedItem) (rr : Bool) (now : Int) :
    smartSyncTable t localData none q rr now = ⟨localData, [], false⟩ := rfl

/-! ## C8: no-op persistence -/

/-- C8: when the merged result is structurally identical to the current
local cache, the apply branch is skipped: no save, the local cache keeps
its value, and the pass is not marked as changed. -/
theorem no_op_persistence (t : String) (localData remoteData : List Row)
    (q : List DeletedItem) (rr : Bool) (now : Int)
    (h : (smartSyncMerge t localData remoteData q rr now).1 = localData) :
    (smartSyncTable t localData (some remoteData) q rr now).saved = false ∧
    (smartSyncTable t localData (some remoteData) q rr now).localData = localData := by
  simp only [smartSyncTable]
  rw [if_pos h.symm]
  exact ⟨rfl, rfl⟩

/-- Witness for C8: an empty cache against an empty remote merges to the
same empty list, so nothing is saved and the cache value is kept. -/
theorem no_op_persistence_witness :
    (smartSyncTable "billboards" [] (some []) [] false 0).saved = false ∧
    (smartSyncTable "billboards" [] (some []) [] false 0).localData = [] :=
  no_op_persistence "billboards" [] [] [] false 0 (by decide)

/-! ## C2: listener isolation (fails on the code) -/

/-- Counterexample to C2 as stated: `notifyListeners` is
`listeners.forEach(listener => listener())` with no per-listener
`try`/`catch`, so with three subscribed listeners where the second throws,
only the first two are invoked — the third never runs — and the exception
escapes to `notifyListeners`'s caller, where the claim requires the first
and third both to be invoked. -/
theorem notify_isolation_counterexample :
    notifyListeners [ListenerKind.ok, ListenerKind.throwing, ListenerKind.ok] = (2, true) := by
  decide

/-- C2 amended: `notifyListeners` invokes listeners synchronously in
registration order only up to and including the first throwing listener;
that listener's exception prevents the remaining listeners from running
and propagates to the caller. When no listener throws, every listener is
invoked in order and nothing escapes. -/
theorem notify_stops_at_first_throwing_listener (pre post : List ListenerKind)
    (h : ∀ l ∈ pre, l = ListenerKind.ok) :
    notifyListeners (pre ++ ListenerKind.throwing :: post) = (pre.length + 1, true) ∧
    notifyListeners pre = (pre.length, false) := by
  induction pre with
  | nil => simp [notifyListeners]
  | cons a rest ih =>
    have ha : a = ListenerKind.ok := h a (List.mem_cons_self a rest)
    obtain ⟨ih1, ih2⟩ := ih (fun l hl => h l (List.mem_cons_of_mem a hl))
    subst ha
    exact ⟨by simp [notifyListeners, ih1], by simp [notifyListeners, ih2]⟩

/-- Witness for the amended C2: one healthy listener followed by a
throwing one and one more listener — the first two run, the third does
not, the exception escapes; with only the healthy listener subscribed,
exactly it runs and nothing escapes. -/
theorem notify_stops_witness :
    notifyListeners [ListenerKind.ok, ListenerKind.throwing, ListenerKind.throwing] = (2, true) ∧
    notifyListeners [ListenerKind.ok] = (1, false) := by
  simpa using notify_stops_at_first_throwing_listener [ListenerKind.ok]
    [ListenerKind.throwing] (by simp)

/-! ## C9: users-collection exemption -/

/-- C9: for the `users` collection, every local-only row not pending
deletion is classified as new (`if (tableName === 'users') isNewLocal =
true`), hence included in the merged result and pushed to the remote
store, whatever its id's embedded timestamp, prefix, or the restore flag. -/
theorem users_collection_exemption (localData remoteData : List Row)
    (q : List DeletedItem) (rr : Bool) (now : Int) (row : Row)
    (hlocal : row ∈ localData)
    (hremote : row.id ∉ remoteData.map Row.id)
    (hnq : row.id ∉ pendingIdsFor q "users") :
    row ∈ (smartSyncMerge "users" localData remoteData q rr now).1 ∧
    row ∈ (smartSyncMerge "users" localData remoteData q rr now).2 := by
  have hclass : classifyIsNewLocal "users" rr now row.id = true := by
    simp [classifyIsNewLocal]
  exact mem_of_localOnlyCond hlocal hremote (localOnlyCond_intro hnq hclass hremote)

/-- Witness for C9: a local-only user row whose id embeds a timestamp more
than 10 minutes old is still merged and upserted. -/
theorem users_collection_exemption_witness :
    (⟨"user-1000000000000", ""⟩ : Row) ∈
      (smartSyncMerge "users" [⟨"user-1000000000000", ""⟩] [] [] false 9300000000000).1 ∧
    (⟨"user-1000000000000", ""⟩ : Row) ∈
      (smartSyncMerge "users" [⟨"user-1000000000000", ""⟩] [] [] false 9300000000000).2 :=
  users_collection_exemption [⟨"user-1000000000000", ""⟩] [] [] false 9300000000000
    ⟨"user-1000000000000", ""⟩ (by decide) (by decide) (by decide)

/-! ## C10: one-sided recency window -/

/-- C10: the recency test is only `Date.now() - ts < 600000`, with no lower
bound, so a local-only row (not pending deletion) whose id embeds a
timestamp in the future — arbitrarily far ahead of now — is always
classified as newly created, included in the merged result, and upserted. -/
theorem future_timestamp_always_new (t : String) (localData remoteData : List Row)
    (q : List DeletedItem) (rr : Bool) (now ts : Int) (row : Row)
    (hlocal : row ∈ localData)
    (hremote : row.id ∉ remoteData.map Row.id)
    (hnq : row.id ∉ pendingIdsFor q t)
    (hts : extractTs row.id = some ts)
    (hfut : now < ts) :
    classifyIsNewLocal t rr now row.id = true ∧
    row ∈ (smartSyncMerge t localData remoteData q rr now).1 ∧
    row ∈ (smartSyncMerge t localData remoteData q rr now).2 := by
  have hclass : classifyIsNewLocal t rr now row.id = true := by
    have hd : decide (now - ts < 600000) = true := decide_eq_true (by omega)
    simp [classifyIsNewLocal, hts, hd]
  exact ⟨hclass, mem_of_localOnlyCond hlocal hremote (localOnlyCond_intro hnq hclass hremote)⟩

/-- Witness for C10: a billboard row whose id embeds a timestamp nearly
300 years ahead of `now` is still merged and upserted. -/
theorem future_timestamp_always_new_witness :
    classifyIsNewLocal "billboards" false 1000 "billboard-9999999999999" = true ∧
    (⟨"billboard-9999999999999", ""⟩ : Row) ∈
      (smartSyncMerge "billboards" [⟨"billboard-9999999999999", ""⟩] [] [] false 1000).1 ∧
    (⟨"billboard-9999999999999", ""⟩ : Row) ∈
      (smartSyncMerge "billboards" [⟨"billboard-9999999999999", ""⟩] [] [] false 1000).2 :=
  future_timestamp_always_new "billboards" [⟨"billboard-9999999999999", ""⟩] [] [] false
    1000 9999999999999 ⟨"billboard-9999999999999", ""⟩ (by decide) (by decide) (by decide)
    (by decide) (by decide)

/-! ## C3: local-only staleness drop (fails for the users collection) -/

/-- Counterexample to C3 as stated ("for every collection"): a local-only
`users` row satisfying every hypothesis of the claim — embedded timestamp
600001 ms (just over 10 minutes) older than now, id neither short nor
dev/owner-prefixed, no recent restore, not pending deletion — is still in
the merged result, because `if (tableName === 'users') isNewLocal = true`
overrides the staleness classification. -/
theorem staleness_drop_users_counterexample :
    extractTs "user-1000000000000" = some 1000000000000 ∧
    (600000 : Int) < 1000000600001 - 1000000000000 ∧
    ¬ ("user-1000000000000".length < 10) ∧
    strStartsWith "user-1000000000000" "dev-" = false ∧
    strStartsWith "user-1000000000000" "owner-" = false ∧
    pendingIdsFor [] "users" = [] ∧
    (⟨"user-1000000000000", ""⟩ : Row) ∈
      (smartSyncMerge "users" [⟨"user-1000000000000", ""⟩] [] [] false 1000000600001).1 := by
  decide

/-- C3 amended: for every collection other than `users`, a local-only row
whose id embeds a timestamp more than 10 minutes older than now, is not a
static/dev-prefixed id, is not covered by a recent-restore flag, and is
not pending deletion, is absent from the merged result (no record with its
id survives the pass). -/
theorem local_only_staleness_drop (t : String) (localData remoteData : List Row)
    (q : List DeletedItem) (now ts : Int) (row : Row)
    (htu : t ≠ "users")
    (hlocal : row ∈ localData)
    (hremote : row.id ∉ remoteData.map Row.id)
    (hts : extractTs row.id = some ts)
    (hold : 600000 < now - ts)
    (hnq : row.id ∉ pendingIdsFor q t)
    (hstat : ¬ row.id.length < 10)
    (hdev : strStartsWith row.id "dev-" = false)
    (hown : strStartsWith row.id "owner-" = false) :
    ∀ r ∈ (smartSyncMerge t localData remoteData q false now).1, r.id ≠ row.id := by
  intro r hr hEq
  rw [smartSyncMerge_eq] at hr
  rcases List.mem_append.mp hr with h | h
  · have hrRemote : r ∈ remoteData := by
      unfold mergedBaseOf at h
      exact (List.mem_filter.mp h).1
    exact hremote (hEq ▸ List.mem_map_of_mem Row.id hrRemote)
  · have hcond := (List.mem_filter.mp h).2
    have hclassR : classifyIsNewLocal t false now r.id = true := by
      simp only [localOnlyCond, Bool.and_eq_true] at hcond
      exact hcond.2.1
    rw [hEq] at hclassR
    have hclassRow : classifyIsNewLocal t false now row.id = false := by
      have hd : decide (now - ts < 600000) = false := decide_eq_false (by omega)
      have htb : (t == "users") = false := by simpa using htu
      simp [classifyIsNewLocal, hts, hd, htb]
    rw [hclassRow] at hclassR
    exact Bool.false_ne_true hclassR

/-- Witness for the amended C3: a stale local-only billboard row (embedded
timestamp 600001 ms older than now) is dropped from the merged result. -/
theorem local_only_staleness_drop_witness :
    ((smartSyncMerge "billboards" [⟨"billboard-1000000000000", ""⟩] [] []
        false 1000000600001).1.all
      (fun r => !(r.id == "billboard-1000000000000"))) = true := by
  have h := local_only_staleness_drop "billboards" [⟨"billboard-1000000000000", ""⟩] [] []
    1000000600001 1000000000000 ⟨"billboard-1000000000000", ""⟩ (by decide) (by decide)
    (by decide) (by decide) (by decide) (by decide) (by decide) (by decide) (by decide)
  rw [List.all_eq_true]
  intro r hr
  simpa using h r hr

/-! ## C4: local-only recency inclusion -/

/-- Per-id filtering of a list with unique ids: when `row` is in `l` and
passes the filter, the rows of `l.filter p` carrying `row`'s id are
exactly `[row]`. -/
theorem filter_id_of_nodup (l : List Row) (row : Row) (p : Row → Bool)
    (hnd : (l.map Row.id).Nodup) (hmem : row ∈ l) (hp : p row = true) :
    (l.filter p).filter (fun r => r.id == row.id) = [row] := by
  induction l with
  | nil => cases hmem
  | cons x xs ih =>
    rw [List.map_cons, List.nodup_cons] at hnd
    obtain ⟨hx, hnd2⟩ := hnd
    rcases List.mem_cons.mp hmem with hEq | hmem2
    · subst hEq
      have hxs : (xs.filter p).filter (fun r => r.id == row.id) = [] := by
        rw [List.filter_eq_nil_iff]
        intro y hy
        have hyxs : y ∈ xs := List.mem_of_mem_filter hy
        have hne : y.id ≠ row.id := fun hid => hx (hid ▸ List.mem_map_of_mem Row.id hyxs)
        simpa using hne
      rw [List.filter_cons, if_pos (by simp [hp]), List.filter_cons, if_pos (by simp), hxs]
    · have hxne : (x.id == row.id) = false := by
        have hne : x.id ≠ row.id :=
          fun hid => hx (by rw [hid]; exact List.mem_map_of_mem Row.id hmem2)
        simpa using hne
      rw [List.filter_cons]
      by_cases hpx : p x = true
      · rw [if_pos (by simp [hpx]), List.filter_cons, if_neg (by simp [hxne])]
        exact ih hnd2 hmem2
      · rw [if_neg (by simpa using hpx)]
        exact ih hnd2 hmem2

/-- C4: a local-only row with unique id, not pending deletion, whose id
embeds a timestamp less than 10 minutes old relative to now, is included
in the merged result, and exactly one upsert is issued for that row during
the pass (the upsert calls carrying its id are exactly one, namely the row
itself). -/
theorem local_only_recency_inclusion (t : String) (localData remoteData : List Row)
    (q : List DeletedItem) (rr : Bool) (now ts : Int) (row : Row)
    (hnd : (localData.map Row.id).Nodup)
    (hlocal : row ∈ localData)
    (hremote : row.id ∉ remoteData.map Row.id)
    (hnq : row.id ∉ pendingIdsFor q t)
    (hts : extractTs row.id = some ts)
    (hage0 : 0 ≤ now - ts)
    (hage : now - ts < 600000) :
    row ∈ (smartSyncMerge t localData remoteData q rr now).1 ∧
    (smartSyncMerge t localData remoteData q rr now).2.filter
      (fun r => r.id == row.id) = [row] := by
  have hclass : classifyIsNewLocal t rr now row.id = true := by
    have hd : decide (now - ts < 600000) = true := decide_eq_true hage
    simp [classifyIsNewLocal, hts, hd]
  have hcond := localOnlyCond_intro hnq hclass hremote
  refine ⟨(mem_of_localOnlyCond hlocal hremote hcond).1, ?_⟩
  have hlo : row ∈ localData.filter (fun l => !(remoteData.map Row.id).contains l.id) :=
    List.mem_filter.mpr ⟨hlocal, by rw [contains_eq_false_of_not_mem hremote]; rfl⟩
  have hndf : ((localData.filter
      (fun l => !(remoteData.map Row.id).contains l.id)).map Row.id).Nodup :=
    (List.Sublist.map Row.id (List.filter_sublist localData)).nodup hnd
  have hres := filter_id_of_nodup _ row _ hndf hlo hcond
  rw [smartSyncMerge_eq]
  exact hres

/-- Witness for C4: a billboard row created 599999 ms ago is merged and
upserted exactly once. -/
theorem local_only_recency_inclusion_witness :
    (⟨"billboard-1000000000000", ""⟩ : Row) ∈
      (smartSyncMerge "billboards" [⟨"billboard-1000000000000", ""⟩] [] []
        false 1000000599999).1 ∧
    (smartSyncMerge "billboards" [⟨"billboard-1000000000000", ""⟩] [] []
        false 1000000599999).2.filter
      (fun r => r.id == "billboard-1000000000000") = [⟨"billboard-1000000000000", ""⟩] :=
  local_only_recency_inclusion "billboards" [⟨"billboard-1000000000000", ""⟩] [] []
    false 1000000599999 1000000000000 ⟨"billboard-1000000000000", ""⟩ (by decide)
    (by decide) (by decide) (by decide) (by decide) (by decide) (by decide)

/-! ## C5: end-to-end reconciliation scenario -/

/-- C5: local cache `[{id:"a"}, {id:"billboard-1700000000000"}]` (the first
a static short id, the second embedding a timestamp within the 10-minute
window of now), remote fetch `[{id:"a", name:"A-remote"}]`, empty deletion
queue: the merged result is the remote version of `"a"` (remote wins in
full) followed by the local billboard row, and exactly one upsert is
issued — for the billboard row. -/
theorem end_to_end_reconciliation (now : Int) (h : now - 1700000000000 < 600000) :
    smartSyncMerge "billboards" [⟨"a", ""⟩, ⟨"billboard-1700000000000", ""⟩]
        [⟨"a", "A-remote"⟩] [] false now =
      ([⟨"a", "A-remote"⟩, ⟨"billboard-1700000000000", ""⟩],
       [⟨"billboard-1700000000000", ""⟩]) := by
  rw [smartSyncMerge_eq]
  have hts : extractTs "billboard-1700000000000" = some 1700000000000 := by decide
  have hclass : classifyIsNewLocal "billboards" false now "billboard-1700000000000" = true := by
    have hd : decide (now - 1700000000000 < 600000) = true := decide_eq_true h
    simp [classifyIsNewLocal, hts, hd]
  have h1 : mergedBaseOf "billboards" [⟨"a", "A-remote"⟩] [] = [⟨"a", "A-remote"⟩] := by decide
  have h2 : pushedRowsOf "billboards" [⟨"a", ""⟩, ⟨"billboard-1700000000000", ""⟩]
      [⟨"a", "A-remote"⟩] [] false now = [⟨"billboard-1700000000000", ""⟩] := by
    unfold pushedRowsOf
    have hf1 : ([⟨"a", ""⟩, ⟨"billboard-1700000000000", ""⟩] : List Row).filter
        (fun l => !(([⟨"a", "A-remote"⟩] : List Row).map Row.id).contains l.id) =
        [⟨"billboard-1700000000000", ""⟩] := by decide
    rw [hf1]
    have hcond : localOnlyCond "billboards" (pendingIdsFor [] "billboards")
        ((mergedBaseOf "billboards" [⟨"a", "A-remote"⟩] []).map Row.id) false now
        ⟨"billboard-1700000000000", ""⟩ = true := by
      simp only [localOnlyCond, hclass]
      decide
    rw [List.filter_cons, if_pos (by simp [hcond]), List.filter_nil]
  rw [h1, h2]
  rfl

/-- Witness for C5: the scenario at `now = 1700000000000` (the embedded
timestamp itself, age 0 ms, inside the window). -/
theorem end_to_end_reconciliation_witness :
    smartSyncMerge "billboards" [⟨"a", ""⟩, ⟨"billboard-1700000000000", ""⟩]
        [⟨"a", "A-remote"⟩] [] false 1700000000000 =
      ([⟨"a", "A-remote"⟩, ⟨"billboard-1700000000000", ""⟩],
       [⟨"billboard-1700000000000", ""⟩]) :=
  end_to_end_reconciliation 1700000000000 (by decide)

/-! ## C6: quota-exhaustion fallback -/

/-- C6: if the first write attempt fails with a quota-exceeded error,
`saveToStorage` removes exactly the audit-log cache, auto-backup data and
cloud-mirror data keys, in that order, and retries the write exactly once
(two attempts in total); and in every case — first attempt succeeding,
quota retry succeeding or failing, or any non-quota failure — no exception
reaches the caller. -/
theorem save_quota_fallback {σ : Type} (M : LocalStorage σ) (s : σ) (key value : String) :
    ((M.setItem s key value = Except.error JsErr.quotaExceeded) →
      (saveToStorage M s key value).removed = [logsKey, autoBackupKey, cloudMirrorKey] ∧
      (saveToStorage M s key value).attempts = 2) ∧
    (saveToStorage M s key value).raised = none := by
  cases hset : M.setItem s key value with
  | ok s1 => simp [saveToStorage, hset]
  | error e =>
    by_cases he : e = JsErr.quotaExceeded
    · subst he
      cases hset2 : M.setItem (M.removeItem (M.removeItem (M.removeItem s logsKey)
          autoBackupKey) cloudMirrorKey) key value with
      | ok s2 => simp [saveToStorage, hset, hset2]
      | error e2 => simp [saveToStorage, hset, hset2]
    · simp [saveToStorage, hset, he]

/-- Witness for C6 against the concrete storage stub of the spec's test:
with the audit-log cache key present, the first write throws
quota-exceeded; `saveToStorage` evicts the three keys, retries once
successfully, and raises nothing. -/
theorem save_quota_fallback_witness :
    (saveToStorage quotaStub [logsKey] "db_billboards" "[]").removed =
      [logsKey, autoBackupKey, cloudMirrorKey] ∧
    (saveToStorage quotaStub [logsKey] "db_billboards" "[]").attempts = 2 ∧
    (saveToStorage quotaStub [logsKey] "db_billboards" "[]").raised = none := by
  obtain ⟨h1, h2⟩ := save_quota_fallback quotaStub [logsKey] "db_billboards" "[]"
  obtain ⟨hr, ha⟩ := h1 rfl
  exact ⟨hr, ha, h2⟩
